import Mathlib

/-!
Verification of the tic-tac-toe repository: a shallow embedding of the
client game engine (`public/game.js`) and of the Express/SQLite record
service (`server.js`), together with proofs of the specified properties.

Game engine state is the four script-level variables of `game.js`
(`cells`, `currentPlayer`, `gameActive`, `moves`); the `saved` field
records the sequence of `saveGame(winner)` POST payloads the engine
issues, so that terminal outcomes are observable in the model.
-/

/-- The two player marks, the strings `'X'` and `'O'` of `game.js`. -/
inductive Mark where
  | X
  | O
  deriving DecidableEq, Repr

/-- `currentPlayer === 'X' ? 'O' : 'X'` from `handleCellClick`. -/
def Mark.other : Mark → Mark
  | .X => .O
  | .O => .X

/-- The string a mark denotes in JavaScript. -/
def Mark.str : Mark → String
  | .X => "X"
  | .O => "O"

/-- One entry of the `moves` array: `{ player: currentPlayer, position: idx }`. -/
structure Move where
  player : Mark
  position : Fin 9
  deriving DecidableEq, Repr

/-- The engine state: the four script-level variables of `game.js`, plus the
trace `saved` of `saveGame` payloads (winner string and posted move list). -/
structure GameState where
  cells : Fin 9 → Option Mark
  currentPlayer : Mark
  gameActive : Bool
  moves : List Move
  saved : List (String × List Move)

instance : DecidableEq GameState := fun a b =>
  decidable_of_iff
    (a.cells = b.cells ∧ a.currentPlayer = b.currentPlayer ∧
      a.gameActive = b.gameActive ∧ a.moves = b.moves ∧ a.saved = b.saved)
    (by cases a; cases b; simp_all)

/-- The initial assignment of the script-level variables in `game.js`. -/
def initialState : GameState :=
  { cells := fun _ => none, currentPlayer := .X, gameActive := true,
    moves := [], saved := [] }

/-- `cells[idx] = v` as a functional update (no `Eq.rec`, so it reduces). -/
def setCell (cells : Fin 9 → Option Mark) (idx : Fin 9) (v : Option Mark) :
    Fin 9 → Option Mark :=
  fun i => if i = idx then v else cells i

/-- The `winPatterns` array of `checkWinner`. -/
def winPatterns : List (Fin 9 × Fin 9 × Fin 9) :=
  [(0, 1, 2), (3, 4, 5), (6, 7, 8),
   (0, 3, 6), (1, 4, 7), (2, 5, 8),
   (0, 4, 8), (2, 4, 6)]

/-- `checkWinner()`: some pattern `[a,b,c]` has
`cells[a] && cells[a] === cells[b] && cells[a] === cells[c]`. -/
def checkWinner (cells : Fin 9 → Option Mark) : Bool :=
  winPatterns.any fun t =>
    match cells t.1 with
    | some m => cells t.2.1 == some m && cells t.2.2 == some m
    | none => false

/-- `cells.every(cell => cell)` from the draw branch of `handleCellClick`. -/
def boardFull (cells : Fin 9 → Option Mark) : Bool :=
  (List.finRange 9).all fun i => (cells i).isSome

/-- `handleCellClick(idx)` from `game.js`: guard, place the mark, push the
move, then win check / draw check / toggle, saving the game when terminal. -/
def handleCellClick (s : GameState) (idx : Fin 9) : GameState :=
  if !s.gameActive || (s.cells idx).isSome then s
  else
    let cells := setCell s.cells idx (some s.currentPlayer)
    let moves := s.moves ++ [⟨s.currentPlayer, idx⟩]
    if checkWinner cells then
      { cells := cells, currentPlayer := s.currentPlayer, gameActive := false,
        moves := moves, saved := s.saved ++ [(s.currentPlayer.str, moves)] }
    else if boardFull cells then
      { cells := cells, currentPlayer := s.currentPlayer, gameActive := false,
        moves := moves, saved := s.saved ++ [("draw", moves)] }
    else
      { cells := cells, currentPlayer := s.currentPlayer.other,
        gameActive := true, moves := moves, saved := s.saved }

/-- `restartGame()` from `game.js`; the trace of already-posted games stays. -/
def restartGame (s : GameState) : GameState :=
  { cells := fun _ => none, currentPlayer := .X, gameActive := true,
    moves := [], saved := s.saved }

/-- A user interaction: a cell click or a press of the restart button. -/
inductive Event where
  | click (idx : Fin 9)
  | restart
  deriving DecidableEq, Repr

/-- One interaction step. -/
def step (s : GameState) : Event → GameState
  | .click idx => handleCellClick s idx
  | .restart => restartGame s

/-- The state after a sequence of interactions from the initial state. -/
def run (l : List Event) : GameState :=
  l.foldl step initialState

/-- The state after a sequence of cell clicks. -/
def clicks (l : List (Fin 9)) (s : GameState) : GameState :=
  l.foldl handleCellClick s

/-- Declarative reading of `checkWinner`: some listed triple has all three
cells non-empty and identical. -/
def WinsProp (cells : Fin 9 → Option Mark) : Prop :=
  ∃ t ∈ winPatterns,
    cells t.1 ≠ none ∧ cells t.1 = cells t.2.1 ∧ cells t.1 = cells t.2.2

instance (cells : Fin 9 → Option Mark) : Decidable (WinsProp cells) :=
  List.decidableBEx _ winPatterns

lemma checkWinner_iff (cells : Fin 9 → Option Mark) :
    checkWinner cells = true ↔ WinsProp cells := by
  unfold checkWinner WinsProp
  rw [List.any_eq_true]
  refine exists_congr fun t => and_congr_right fun _ => ?_
  cases h1 : cells t.1 with
  | none => simp
  | some m =>
    constructor
    · intro hb
      have hb' : cells t.2.1 = some m ∧ cells t.2.2 = some m := by
        simpa using hb
      exact ⟨by simp, hb'.1.symm, hb'.2.symm⟩
    · rintro ⟨-, ha, hb⟩
      simp [← ha, ← hb]

lemma boardFull_iff (cells : Fin 9 → Option Mark) :
    boardFull cells = true ↔ ∀ i, cells i ≠ none := by
  simp [boardFull, Option.isSome_iff_ne_none]

lemma click_noop (s : GameState) (idx : Fin 9)
    (h : s.gameActive = false ∨ (s.cells idx).isSome = true) :
    handleCellClick s idx = s := by
  unfold handleCellClick
  rcases h with h | h <;> simp [h]

lemma click_active (s : GameState) (idx : Fin 9)
    (hact : s.gameActive = true) (hempty : s.cells idx = none) :
    handleCellClick s idx =
      (let cells := setCell s.cells idx (some s.currentPlayer)
       let moves := s.moves ++ [⟨s.currentPlayer, idx⟩]
       if checkWinner cells then
         { cells := cells, currentPlayer := s.currentPlayer,
           gameActive := false, moves := moves,
           saved := s.saved ++ [(s.currentPlayer.str, moves)] }
       else if boardFull cells then
         { cells := cells, currentPlayer := s.currentPlayer,
           gameActive := false, moves := moves,
           saved := s.saved ++ [("draw", moves)] }
       else
         { cells := cells, currentPlayer := s.currentPlayer.other,
           gameActive := true, moves := moves, saved := s.saved }) := by
  unfold handleCellClick
  rw [hact, hempty]
  simp

lemma click_win (s : GameState) (idx : Fin 9)
    (hact : s.gameActive = true) (hempty : s.cells idx = none)
    (hw : checkWinner (setCell s.cells idx (some s.currentPlayer)) = true) :
    handleCellClick s idx =
      { cells := setCell s.cells idx (some s.currentPlayer),
        currentPlayer := s.currentPlayer, gameActive := false,
        moves := s.moves ++ [⟨s.currentPlayer, idx⟩],
        saved := s.saved ++
          [(s.currentPlayer.str, s.moves ++ [⟨s.currentPlayer, idx⟩])] } := by
  rw [click_active s idx hact hempty]
  simp [hw]

lemma click_draw (s : GameState) (idx : Fin 9)
    (hact : s.gameActive = true) (hempty : s.cells idx = none)
    (hw : checkWinner (setCell s.cells idx (some s.currentPlayer)) = false)
    (hf : boardFull (setCell s.cells idx (some s.currentPlayer)) = true) :
    handleCellClick s idx =
      { cells := setCell s.cells idx (some s.currentPlayer),
        currentPlayer := s.currentPlayer, gameActive := false,
        moves := s.moves ++ [⟨s.currentPlayer, idx⟩],
        saved := s.saved ++
          [("draw", s.moves ++ [⟨s.currentPlayer, idx⟩])] } := by
  rw [click_active s idx hact hempty]
  simp [hw, hf]

lemma click_cont (s : GameState) (idx : Fin 9)
    (hact : s.gameActive = true) (hempty : s.cells idx = none)
    (hw : checkWinner (setCell s.cells idx (some s.currentPlayer)) = false)
    (hf : boardFull (setCell s.cells idx (some s.currentPlayer)) = false) :
    handleCellClick s idx =
      { cells := setCell s.cells idx (some s.currentPlayer),
        currentPlayer := s.currentPlayer.other, gameActive := true,
        moves := s.moves ++ [⟨s.currentPlayer, idx⟩],
        saved := s.saved } := by
  rw [click_active s idx hact hempty]
  simp [hw, hf]

/-- C1. A move on an active game and an unoccupied cell sets the cell to the
current player's mark and then settles the game in fixed priority: win over
the 8 listed triples (all three cells non-empty and identical), else draw
when all 9 cells are occupied, else the game stays active and the player
toggles; a full board with no winning triple always ends as a draw. -/
theorem C1_move_terminal_priority (s : GameState) (idx : Fin 9)
    (hact : s.gameActive = true) (hempty : s.cells idx = none) :
    (handleCellClick s idx).cells = setCell s.cells idx (some s.currentPlayer) ∧
    (handleCellClick s idx).moves = s.moves ++ [⟨s.currentPlayer, idx⟩] ∧
    (WinsProp (setCell s.cells idx (some s.currentPlayer)) →
      (handleCellClick s idx).gameActive = false ∧
      (handleCellClick s idx).currentPlayer = s.currentPlayer ∧
      (handleCellClick s idx).saved = s.saved ++
        [(s.currentPlayer.str, s.moves ++ [⟨s.currentPlayer, idx⟩])]) ∧
    (¬ WinsProp (setCell s.cells idx (some s.currentPlayer)) →
      (∀ i, setCell s.cells idx (some s.currentPlayer) i ≠ none) →
      (handleCellClick s idx).gameActive = false ∧
      (handleCellClick s idx).saved = s.saved ++
        [("draw", s.moves ++ [⟨s.currentPlayer, idx⟩])]) ∧
    (¬ WinsProp (setCell s.cells idx (some s.currentPlayer)) →
      (∃ i, setCell s.cells idx (some s.currentPlayer) i = none) →
      (handleCellClick s idx).gameActive = true ∧
      (handleCellClick s idx).currentPlayer = s.currentPlayer.other ∧
      (handleCellClick s idx).saved = s.saved) := by
  by_cases hw : checkWinner (setCell s.cells idx (some s.currentPlayer)) = true
  · rw [click_win s idx hact hempty hw]
    exact ⟨rfl, rfl, fun _ => ⟨rfl, rfl, rfl⟩,
      fun hnw _ => absurd ((checkWinner_iff _).mp hw) hnw,
      fun hnw _ => absurd ((checkWinner_iff _).mp hw) hnw⟩
  · have hw' : checkWinner (setCell s.cells idx (some s.currentPlayer)) = false :=
      Bool.eq_false_iff.mpr hw
    by_cases hf : boardFull (setCell s.cells idx (some s.currentPlayer)) = true
    · rw [click_draw s idx hact hempty hw' hf]
      refine ⟨rfl, rfl, fun hwp => ?_, fun _ _ => ⟨rfl, rfl⟩, fun _ hne => ?_⟩
      · exact absurd hwp (fun hwp => hw ((checkWinner_iff _).mpr hwp))
      · rcases hne with ⟨i, hi⟩
        exact absurd hi ((boardFull_iff _).mp hf i)
    · have hf' : boardFull (setCell s.cells idx (some s.currentPlayer)) = false :=
        Bool.eq_false_iff.mpr hf
      rw [click_cont s idx hact hempty hw' hf']
      refine ⟨rfl, rfl, fun hwp => ?_, fun _ hfull => ?_, fun _ _ => ⟨rfl, rfl, rfl⟩⟩
      · exact absurd hwp (fun hwp => hw ((checkWinner_iff _).mpr hwp))
      · exact absurd hfull (fun hfull => hf ((boardFull_iff _).mpr hfull))

/-- Witness for C1: the first move of a fresh game lands in the
stay-active branch and toggles the player to O. -/
theorem C1_witness :
    initialState.gameActive = true ∧ initialState.cells 0 = none ∧
    (handleCellClick initialState 0).gameActive = true ∧
    (handleCellClick initialState 0).currentPlayer = Mark.O := by
  refine ⟨by decide, by decide, ?_⟩
  have h := C1_move_terminal_priority initialState 0 (by decide) (by decide)
  have h5 := h.2.2.2.2 (by decide) ⟨1, by decide⟩
  exact ⟨h5.1, h5.2.1⟩

/-- C3. The top-row scenario: after `[0,3,1,4]` the game is still active with
nothing saved; the fifth click on cell 2 completes the row, the engine saves
winner "X" with the five recorded moves, the game becomes inactive, every
further click is a no-op, and `restartGame` makes the game active again. -/
theorem C3_win_detected_immediately :
    (clicks [0, 3, 1, 4] initialState).gameActive = true ∧
    (clicks [0, 3, 1, 4] initialState).saved = [] ∧
    (clicks [0, 3, 1, 4, 2] initialState).gameActive = false ∧
    (clicks [0, 3, 1, 4, 2] initialState).saved =
      [("X", [⟨.X, 0⟩, ⟨.O, 3⟩, ⟨.X, 1⟩, ⟨.O, 4⟩, ⟨.X, 2⟩])] ∧
    (∀ idx, handleCellClick (clicks [0, 3, 1, 4, 2] initialState) idx =
      clicks [0, 3, 1, 4, 2] initialState) ∧
    (restartGame (clicks [0, 3, 1, 4, 2] initialState)).gameActive = true := by
  decide

/-- C6. `restartGame` succeeds from any state: all 9 cells empty, current
player X, game active, move list empty. -/
theorem C6_restart_resets (s : GameState) :
    (∀ i, (restartGame s).cells i = none) ∧
    (restartGame s).currentPlayer = Mark.X ∧
    (restartGame s).gameActive = true ∧
    (restartGame s).moves = [] :=
  ⟨fun _ => rfl, rfl, rfl, rfl⟩

/-- The mark recorded in `moves` at board index `i` (first match). -/
def playerAt (ms : List Move) (i : Fin 9) : Option Mark :=
  (ms.find? fun mv => mv.position == i).map Move.player

/-- The mark whose turn it is after `n` recorded moves. -/
def nextMark (n : Nat) : Mark :=
  if n % 2 = 0 then .X else .O

/-- The strictly alternating mark sequence of length `n`, starting with X. -/
def altList (n : Nat) : List Mark :=
  (List.range n).map nextMark

/-- How many cells of the board hold mark `m`. -/
def countMark (cells : Fin 9 → Option Mark) (m : Mark) : Nat :=
  (Finset.univ.filter fun i => cells i = some m).card

lemma altList_succ (n : Nat) : altList (n + 1) = altList n ++ [nextMark n] := by
  unfold altList
  rw [List.range_succ, List.map_append]
  rfl

lemma nextMark_other (n : Nat) : (nextMark n).other = nextMark (n + 1) := by
  unfold nextMark Mark.other
  by_cases h : n % 2 = 0
  · have h1 : (n + 1) % 2 = 1 := by omega
    simp [h, h1]
  · have h1 : (n + 1) % 2 = 0 := by omega
    simp [h, h1]

lemma countMark_setCell_self (cells : Fin 9 → Option Mark) (idx : Fin 9)
    (m : Mark) (h : cells idx = none) :
    countMark (setCell cells idx (some m)) m = countMark cells m + 1 := by
  unfold countMark setCell
  have hins : (Finset.univ.filter fun i =>
        (if i = idx then some m else cells i) = some m)
      = insert idx (Finset.univ.filter fun i => cells i = some m) := by
    ext j
    by_cases hj : j = idx
    · subst hj
      simp [h]
    · simp [hj]
  rw [hins, Finset.card_insert_of_not_mem]
  simp [h]

lemma countMark_setCell_other (cells : Fin 9 → Option Mark) (idx : Fin 9)
    (m m' : Mark) (h : cells idx = none) (hne : m ≠ m') :
    countMark (setCell cells idx (some m)) m' = countMark cells m' := by
  unfold countMark setCell
  congr 1
  ext j
  by_cases hj : j = idx
  · subst hj
    simp [h, hne]
  · simp [hj]

/-- The reachable-state invariant of the engine. -/
structure EngineInv (s : GameState) : Prop where
  cells_eq : ∀ i, s.cells i = playerAt s.moves i
  turn : s.gameActive = true → s.currentPlayer = nextMark s.moves.length
  balance : countMark s.cells .X = countMark s.cells .O ∨
            countMark s.cells .X = countMark s.cells .O + 1
  active_iff : s.gameActive = true →
    (s.currentPlayer = .X ↔ countMark s.cells .X = countMark s.cells .O)
  nodup : (s.moves.map Move.position).Nodup
  alt : s.moves.map Move.player = altList s.moves.length

lemma playerAt_append_eq (ms : List Move) (mv : Move)
    (h : playerAt ms mv.position = none) :
    playerAt (ms ++ [mv]) mv.position = some mv.player := by
  unfold playerAt at *
  rw [List.find?_append]
  have hns : ms.find? (fun x => x.position == mv.position) = none :=
    Option.map_eq_none'.mp h
  rw [hns]
  simp [List.find?]

lemma playerAt_append_ne (ms : List Move) (mv : Move) (i : Fin 9)
    (h : mv.position ≠ i) :
    playerAt (ms ++ [mv]) i = playerAt ms i := by
  unfold playerAt
  rw [List.find?_append]
  have hn : List.find? (fun x => x.position == i) [mv] = none := by
    have hb : (mv.position == i) = false := by
      simp [h]
    simp [List.find?, hb]
  rw [hn, Option.or_none]

lemma playerAt_none_not_mem (ms : List Move) (i : Fin 9)
    (h : playerAt ms i = none) : i ∉ ms.map Move.position := by
  unfold playerAt at h
  have hf := List.find?_eq_none.mp (Option.map_eq_none'.mp h)
  intro hmem
  rcases List.mem_map.mp hmem with ⟨mv, hmv, hpos⟩
  exact hf mv hmv (by simp [hpos])

lemma balance_after (s : GameState) (idx : Fin 9) (h : EngineInv s)
    (hact : s.gameActive = true) (hempty : s.cells idx = none) :
    (countMark (setCell s.cells idx (some s.currentPlayer)) .X
       = countMark (setCell s.cells idx (some s.currentPlayer)) .O + 1
     ∧ s.currentPlayer = .X) ∨
    (countMark (setCell s.cells idx (some s.currentPlayer)) .X
       = countMark (setCell s.cells idx (some s.currentPlayer)) .O
     ∧ s.currentPlayer = .O) := by
  cases hm : s.currentPlayer with
  | X =>
    left
    have heq := (h.active_iff hact).mp hm
    have h1 : countMark (setCell s.cells idx (some Mark.X)) .X
        = countMark s.cells .X + 1 := countMark_setCell_self _ _ _ hempty
    have h2 : countMark (setCell s.cells idx (some Mark.X)) .O
        = countMark s.cells .O := countMark_setCell_other _ _ _ _ hempty (by decide)
    exact ⟨by rw [h1, h2, heq], rfl⟩
  | O =>
    right
    have hXO : countMark s.cells .X = countMark s.cells .O + 1 := by
      rcases h.balance with hb | hb
      · exact absurd ((h.active_iff hact).mpr hb) (by rw [hm]; decide)
      · exact hb
    have h1 : countMark (setCell s.cells idx (some Mark.O)) .O
        = countMark s.cells .O + 1 := countMark_setCell_self _ _ _ hempty
    have h2 : countMark (setCell s.cells idx (some Mark.O)) .X
        = countMark s.cells .X := countMark_setCell_other _ _ _ _ hempty (by decide)
    exact ⟨by rw [h2, h1, hXO], rfl⟩

lemma inv_click (s : GameState) (idx : Fin 9) (h : EngineInv s) :
    EngineInv (handleCellClick s idx) := by
  by_cases hact : s.gameActive = true
  case neg =>
    rw [click_noop s idx (Or.inl (Bool.eq_false_iff.mpr hact))]
    exact h
  by_cases hempty : s.cells idx = none
  case neg =>
    rw [click_noop s idx (Or.inr (Option.isSome_iff_ne_none.mpr hempty))]
    exact h
  have hpA : playerAt s.moves idx = none := by
    rw [← h.cells_eq idx]; exact hempty
  have hnm : idx ∉ s.moves.map Move.position := playerAt_none_not_mem s.moves idx hpA
  have hcells : ∀ i, setCell s.cells idx (some s.currentPlayer) i
      = playerAt (s.moves ++ [⟨s.currentPlayer, idx⟩]) i := by
    intro i
    by_cases hi : i = idx
    · subst hi
      have h1 : setCell s.cells i (some s.currentPlayer) i = some s.currentPlayer := by
        simp [setCell]
      rw [h1]
      exact (playerAt_append_eq s.moves ⟨s.currentPlayer, i⟩ hpA).symm
    · have h1 : setCell s.cells idx (some s.currentPlayer) i = s.cells i := by
        simp [setCell, hi]
      rw [h1, h.cells_eq i]
      exact (playerAt_append_ne s.moves ⟨s.currentPlayer, idx⟩ i (Ne.symm hi)).symm
  have hnodup : ((s.moves ++ [Move.mk s.currentPlayer idx]).map Move.position).Nodup := by
    rw [List.map_append]
    refine List.Nodup.append h.nodup (by simp) ?_
    intro a ha hb
    simp only [List.map_cons, List.map_nil, List.mem_singleton] at hb
    exact hnm (hb ▸ ha)
  have halt : (s.moves ++ [Move.mk s.currentPlayer idx]).map Move.player
      = altList ((s.moves ++ [Move.mk s.currentPlayer idx]).length) := by
    rw [List.map_append, h.alt]
    simp [altList_succ, h.turn hact]
  have hbal := balance_after s idx h hact hempty
  by_cases hw : checkWinner (setCell s.cells idx (some s.currentPlayer)) = true
  · rw [click_win s idx hact hempty hw]
    refine ⟨hcells, ?_, ?_, ?_, hnodup, halt⟩
    · intro hh; exact absurd hh Bool.false_ne_true
    · rcases hbal with ⟨hb, _⟩ | ⟨hb, _⟩
      · exact Or.inr hb
      · exact Or.inl hb
    · intro hh; exact absurd hh Bool.false_ne_true
  · have hw' := Bool.eq_false_iff.mpr hw
    by_cases hf : boardFull (setCell s.cells idx (some s.currentPlayer)) = true
    · rw [click_draw s idx hact hempty hw' hf]
      refine ⟨hcells, ?_, ?_, ?_, hnodup, halt⟩
      · intro hh; exact absurd hh Bool.false_ne_true
      · rcases hbal with ⟨hb, _⟩ | ⟨hb, _⟩
        · exact Or.inr hb
        · exact Or.inl hb
      · intro hh; exact absurd hh Bool.false_ne_true
    · have hf' := Bool.eq_false_iff.mpr hf
      rw [click_cont s idx hact hempty hw' hf']
      refine ⟨hcells, ?_, ?_, ?_, hnodup, halt⟩
      · intro _
        show s.currentPlayer.other
            = nextMark (s.moves ++ [Move.mk s.currentPlayer idx]).length
        rw [show (s.moves ++ [Move.mk s.currentPlayer idx]).length
              = s.moves.length + 1 from by simp,
            ← nextMark_other, h.turn hact]
      · rcases hbal with ⟨hb, _⟩ | ⟨hb, _⟩
        · exact Or.inr hb
        · exact Or.inl hb
      · intro _
        show s.currentPlayer.other = Mark.X ↔
          countMark (setCell s.cells idx (some s.currentPlayer)) Mark.X
            = countMark (setCell s.cells idx (some s.currentPlayer)) Mark.O
        rcases hbal with ⟨hb, hmX⟩ | ⟨hb, hmO⟩
        · constructor
          · intro hco
            rw [hmX] at hco
            exact absurd hco (by decide)
          · intro hcnt
            rw [hb] at hcnt
            exact absurd hcnt (by omega)
        · constructor
          · intro _; exact hb
          · intro _
            simp [hmO, Mark.other]

lemma countMark_none (m : Mark) : countMark (fun _ => none) m = 0 := by
  simp [countMark]

lemma inv_restart (s : GameState) : EngineInv (restartGame s) := by
  refine ⟨fun _ => rfl, fun _ => rfl, ?_, ?_, List.nodup_nil, rfl⟩
  · left
    rw [show (restartGame s).cells = fun _ => none from rfl,
      countMark_none, countMark_none]
  · intro _
    constructor
    · intro _
      rw [show (restartGame s).cells = fun _ => none from rfl,
        countMark_none, countMark_none]
    · intro _
      rfl

lemma inv_initial : EngineInv initialState :=
  inv_restart initialState

lemma inv_clicks : ∀ (l : List (Fin 9)) (s : GameState),
    EngineInv s → EngineInv (l.foldl handleCellClick s)
  | [], _, h => h
  | a :: l, s, h => inv_clicks l _ (inv_click s a h)

lemma inv_steps : ∀ (l : List Event) (s : GameState),
    EngineInv s → EngineInv (l.foldl step s)
  | [], _, h => h
  | e :: l, s, h => by
    refine inv_steps l _ ?_
    cases e with
    | click idx => exact inv_click s idx h
    | restart => exact inv_restart s

lemma inv_run (l : List Event) : EngineInv (run l) :=
  inv_steps l initialState inv_initial

/-- C2. A click on an inactive game or an occupied cell is a complete no-op
(the state is returned unchanged, with no error), and consequently in every
game reachable by clicks from the empty board no two recorded moves target
the same cell index. -/
theorem C2_noop_and_distinct_positions :
    (∀ (s : GameState) (idx : Fin 9),
      s.gameActive = false ∨ (s.cells idx).isSome = true →
      handleCellClick s idx = s) ∧
    (∀ l : List (Fin 9),
      ((clicks l initialState).moves.map Move.position).Nodup) :=
  ⟨click_noop, fun l => (inv_clicks l initialState inv_initial).nodup⟩

/-- Witness for C2: re-clicking the already-occupied cell 0 changes
nothing, and a click list with a repeat yields distinct recorded
positions. -/
theorem C2_witness :
    handleCellClick (clicks [0] initialState) 0 = clicks [0] initialState ∧
    ((clicks [0, 0, 5] initialState).moves.map Move.position).Nodup :=
  ⟨C2_noop_and_distinct_positions.1 (clicks [0] initialState) 0
      (Or.inr (by decide)),
    C2_noop_and_distinct_positions.2 [0, 0, 5]⟩

/-- C9. In every state reachable by clicks and restarts: the number of X
marks on the board equals the number of O marks or exceeds it by one; while
the game is active the current player is X exactly when the counts are
equal; and the recorded move sequence strictly alternates marks starting
with X. -/
theorem C9_parity_invariant (l : List Event) :
    (countMark (run l).cells .X = countMark (run l).cells .O ∨
     countMark (run l).cells .X = countMark (run l).cells .O + 1) ∧
    ((run l).gameActive = true →
      ((run l).currentPlayer = .X ↔
        countMark (run l).cells .X = countMark (run l).cells .O)) ∧
    (run l).moves.map Move.player = altList (run l).moves.length :=
  ⟨(inv_run l).balance, (inv_run l).active_iff, (inv_run l).alt⟩

/-- Witness for C9: after one click the game is active, and the theorem
yields the turn/count equivalence there. -/
theorem C9_witness :
    (run [Event.click 4]).currentPlayer = Mark.X ↔
      countMark (run [Event.click 4]).cells .X
        = countMark (run [Event.click 4]).cells .O :=
  (C9_parity_invariant [Event.click 4]).2.1 (by decide)

/-- The decimal digit character of a board position (positions are 0..8,
so `JSON.stringify` prints a single digit). -/
def posChar : Fin 9 → Char
  | ⟨0, _⟩ => '0'
  | ⟨1, _⟩ => '1'
  | ⟨2, _⟩ => '2'
  | ⟨3, _⟩ => '3'
  | ⟨4, _⟩ => '4'
  | ⟨5, _⟩ => '5'
  | ⟨6, _⟩ => '6'
  | ⟨7, _⟩ => '7'
  | ⟨8, _⟩ => '8'
  | ⟨n + 9, h⟩ => absurd h (by omega)

/-- Reading a single digit back as a board position. -/
def charPos (c : Char) : Option (Fin 9) :=
  if c = '0' then some 0
  else if c = '1' then some 1
  else if c = '2' then some 2
  else if c = '3' then some 3
  else if c = '4' then some 4
  else if c = '5' then some 5
  else if c = '6' then some 6
  else if c = '7' then some 7
  else if c = '8' then some 8
  else none

/-- The character of a mark in the JSON text. -/
def markChar : Mark → Char
  | .X => 'X'
  | .O => 'O'

/-- The characters before the mark in `JSON.stringify` of one move:
an opening brace followed by `"player":"`. -/
def moveOpenChars : List Char := '\x7b' :: "\"player\":\"".toList

/-- The characters between the mark and the digit: `","position":`. -/
def moveMidChars : List Char := "\",\"position\":".toList

/-- `JSON.stringify({player, position})` as a character list. -/
def encodeMoveChars (m : Move) : List Char :=
  moveOpenChars ++ [markChar m.player] ++ moveMidChars
    ++ [posChar m.position, '\x7d']

/-- The serialized text after the first array element: `,move` repeated. -/
def encodeTailChars : List Move → List Char
  | [] => []
  | m :: ms => ',' :: (encodeMoveChars m ++ encodeTailChars ms)

/-- `JSON.stringify` of a whole move array, as a character list. -/
def encodeMovesChars : List Move → List Char
  | [] => '[' :: [']']
  | m :: ms => '[' :: (encodeMoveChars m ++ (encodeTailChars ms ++ [']']))

/-- `JSON.stringify(moves)` as used by `app.post('/api/games')`. -/
def encodeMoves (ms : List Move) : String :=
  String.mk (encodeMovesChars ms)

/-- Consume an expected literal text from the head of the input. -/
def lit : List Char → List Char → Option (List Char)
  | [], cs => some cs
  | p :: ps, c :: cs => if c = p then lit ps cs else none
  | _ :: _, [] => none

/-- Parse the mark character of a serialized move. -/
def parseMark : List Char → Option (Mark × List Char)
  | c :: cs =>
    if c = 'X' then some (.X, cs)
    else if c = 'O' then some (.O, cs)
    else none
  | [] => none

/-- Parse the position digit of a serialized move. -/
def parsePos : List Char → Option (Fin 9 × List Char)
  | c :: cs =>
    match charPos c with
    | some p => some (p, cs)
    | none => none
  | [] => none

/-- Parse one serialized move object. -/
def parseMove (cs : List Char) : Option (Move × List Char) :=
  match lit moveOpenChars cs with
  | none => none
  | some cs1 =>
    match parseMark cs1 with
    | none => none
    | some (m, cs2) =>
      match lit moveMidChars cs2 with
      | none => none
      | some cs3 =>
        match parsePos cs3 with
        | none => none
        | some (p, cs4) =>
          match cs4 with
          | c :: cs5 => if c = '\x7d' then some (Move.mk m p, cs5) else none
          | [] => none

/-- Parse the `,move` repetitions and the closing bracket; `fuel` bounds the
recursion and is in practice the remaining input length. -/
def parseMovesTail (fuel : Nat) (acc : List Move) (cs : List Char) :
    Option (List Move × List Char) :=
  match fuel, cs with
  | 0, _ => none
  | _ + 1, [] => none
  | fuel + 1, c :: cs1 =>
    if c = ']' then some (acc.reverse, cs1)
    else if c = ',' then
      match parseMove cs1 with
      | some (m, cs2) => parseMovesTail fuel (m :: acc) cs2
      | none => none
    else none

/-- `JSON.parse` of a stored `moves` column, modelled as a parser for exactly
the grammar `JSON.stringify` emits for arrays of game moves; any other text
fails (in `server.js` a `JSON.parse` throw is caught and reported as 500). -/
def decodeMoves (s : String) : Option (List Move) :=
  match s.toList with
  | c :: cs =>
    if c = '[' then
      if cs = [']'] then some []
      else
        match parseMove cs with
        | some (m, cs2) =>
          match parseMovesTail (cs2.length + 1) [m] cs2 with
          | some (ms, rest) => if rest = [] then some ms else none
          | none => none
        | none => none
    else none
  | [] => none

lemma lit_append (ps rest : List Char) : lit ps (ps ++ rest) = some rest := by
  induction ps with
  | nil => rfl
  | cons p ps ih => simp [lit, ih]

lemma parseMark_round (m : Mark) (rest : List Char) :
    parseMark (markChar m :: rest) = some (m, rest) := by
  cases m <;> rfl

lemma parsePos_round (p : Fin 9) (rest : List Char) :
    parsePos (posChar p :: rest) = some (p, rest) := by
  fin_cases p <;> rfl

lemma parseMove_round (m : Move) (rest : List Char) :
    parseMove (encodeMoveChars m ++ rest) = some (m, rest) := by
  unfold parseMove encodeMoveChars
  simp only [List.append_assoc, List.cons_append, List.nil_append,
    lit_append, parseMark_round, parsePos_round]
  simp

lemma parseMovesTail_round (ms : List Move) : ∀ (acc : List Move)
    (rest : List Char) (fuel : Nat), (encodeTailChars ms).length < fuel →
    parseMovesTail fuel acc (encodeTailChars ms ++ (']' :: rest))
      = some (acc.reverse ++ ms, rest) := by
  induction ms with
  | nil =>
    intro acc rest fuel hf
    cases fuel with
    | zero => exact absurd hf (Nat.not_lt_zero _)
    | succ f => simp [parseMovesTail, encodeTailChars]
  | cons m ms ih =>
    intro acc rest fuel hf
    cases fuel with
    | zero => exact absurd hf (Nat.not_lt_zero _)
    | succ f =>
      have hlen : (encodeTailChars ms).length < f := by
        have h2 := hf
        rw [show encodeTailChars (m :: ms)
              = ',' :: (encodeMoveChars m ++ encodeTailChars ms) from rfl] at h2
        simp only [List.length_cons, List.length_append] at h2
        omega
      have hstep : parseMovesTail (f + 1) acc
          (encodeTailChars (m :: ms) ++ (']' :: rest))
          = parseMovesTail f (m :: acc)
              (encodeTailChars ms ++ (']' :: rest)) := by
        have h1 : encodeTailChars (m :: ms) ++ (']' :: rest)
            = ',' :: (encodeMoveChars m ++ (encodeTailChars ms ++ (']' :: rest))) := by
          rw [show encodeTailChars (m :: ms)
                = ',' :: (encodeMoveChars m ++ encodeTailChars ms) from rfl]
          simp [List.append_assoc]
        have h2 : parseMovesTail (f + 1) acc
            (',' :: (encodeMoveChars m ++ (encodeTailChars ms ++ (']' :: rest))))
            = (match parseMove
                  (encodeMoveChars m ++ (encodeTailChars ms ++ (']' :: rest))) with
               | some (m2, cs2) => parseMovesTail f (m2 :: acc) cs2
               | none => none) := rfl
        rw [h1, h2, parseMove_round]
      rw [hstep, ih (m :: acc) rest f hlen]
      simp

lemma decode_encode (ms : List Move) : decodeMoves (encodeMoves ms) = some ms := by
  cases ms with
  | nil => rfl
  | cons m ms =>
    have hne : encodeMoveChars m ++ (encodeTailChars ms ++ [']']) ≠ [']'] := by
      simp [encodeMoveChars, moveOpenChars]
    have h0 : decodeMoves (encodeMoves (m :: ms))
        = (if (encodeMoveChars m ++ (encodeTailChars ms ++ [']'])) = [']']
           then some []
           else
             match parseMove (encodeMoveChars m ++ (encodeTailChars ms ++ [']'])) with
             | some (m, cs2) =>
               match parseMovesTail (cs2.length + 1) [m] cs2 with
               | some (ms, rest) => if rest = [] then some ms else none
               | none => none
             | none => none) := rfl
    rw [h0, if_neg hne, parseMove_round]
    show (match parseMovesTail ((encodeTailChars ms ++ [']']).length + 1) [m]
          (encodeTailChars ms ++ [']']) with
        | some (ms, rest) => if rest = [] then some ms else none
        | none => none) = some (m :: ms)
    rw [parseMovesTail_round ms [m] [] ((encodeTailChars ms ++ [']']).length + 1)
        (by simp only [List.length_append, List.length_cons, List.length_nil]; omega)]
    simp

/-- One row of the `games` table created by `initDatabase`. -/
structure GameRow where
  id : Nat
  winner : String
  movesJson : String
  createdAt : Nat
  deriving DecidableEq, Repr

/-- The SQLite store: the `games` rows in insertion order, the next
AUTOINCREMENT id, and a clock supplying `CURRENT_TIMESTAMP`; the clock
advances on every insert, so timestamps strictly increase. -/
structure DB where
  rows : List GameRow
  nextId : Nat
  now : Nat
  deriving DecidableEq, Repr

/-- A freshly initialized store. -/
def DB.empty : DB := ⟨[], 1, 0⟩

/-- A fully deserialized game record as the API returns it. -/
structure GameOut where
  id : Nat
  winner : String
  moves : List Move
  createdAt : Nat
  deriving DecidableEq, Repr

/-- An HTTP reply: a status code with a JSON body, or an error status. -/
inductive Resp (α : Type) where
  | ok (status : Nat) (body : α)
  | err (status : Nat)
  deriving DecidableEq, Repr

/-- `app.post('/api/games')`: insert the row (`winner` as given, `moves` as
`JSON.stringify(moves)`), re-select it by `lastInsertRowid`, parse the moves
column back and answer 201. When `stmt.run` throws (`storeOk = false`) the
catch answers 500 and nothing was written; a `JSON.parse` throw after the
insert would answer 500 with the row kept. -/
def submitGame (db : DB) (storeOk : Bool) (winner : String)
    (moves : List Move) : DB × Resp GameOut :=
  if !storeOk then (db, .err 500)
  else
    let row : GameRow := ⟨db.nextId, winner, encodeMoves moves, db.now⟩
    ⟨⟨db.rows ++ [row], db.nextId + 1, db.now + 1⟩,
      match decodeMoves row.movesJson with
      | some ms => .ok 201 ⟨row.id, row.winner, ms, row.createdAt⟩
      | none => .err 500⟩

/-- `ORDER BY created_at DESC`: `a` comes before `b`. -/
def byNewest (a b : GameRow) : Prop := b.createdAt ≤ a.createdAt

instance : DecidableRel byNewest := fun _ _ => Nat.decLe _ _

/-- The `games.map` of `app.get('/api/games')`: parse every selected row's
moves column; a `JSON.parse` throw on any row fails the whole request. -/
def seqDecode : List GameRow → Option (List GameOut)
  | [] => some []
  | r :: rs =>
    match decodeMoves r.movesJson with
    | none => none
    | some ms =>
      match seqDecode rs with
      | none => none
      | some outs => some (⟨r.id, r.winner, ms, r.createdAt⟩ :: outs)

/-- `app.get('/api/games')`: `SELECT * FROM games ORDER BY created_at DESC
LIMIT 10`, deserialize each row, answer 200; a parse throw answers 500. -/
def listRecentGames (db : DB) : Resp (List GameOut) :=
  match seqDecode ((List.insertionSort byNewest db.rows).take 10) with
  | some outs => .ok 200 outs
  | none => .err 500

/-- The body answered by `app.get('/api/stats')`. -/
structure Stats where
  total_games : Nat
  x_wins : Nat
  o_wins : Nat
  draws : Nat
  deriving DecidableEq, Repr

/-- `SUM(CASE WHEN winner = w THEN 1 ELSE 0 END)`: SQL `SUM` over zero rows
is NULL, modelled as `none`. -/
def sumCase (w : String) (rows : List GameRow) : Option Nat :=
  if rows.isEmpty then none
  else some (rows.countP fun r => r.winner == w)

/-- `app.get('/api/stats')`: the aggregate query followed by the null-to-0
coercions `stats.x_wins || 0` and so on. -/
def getStats (db : DB) : Stats :=
  { total_games := db.rows.length,
    x_wins := (sumCase "X" db.rows).getD 0,
    o_wins := (sumCase "O" db.rows).getD 0,
    draws := (sumCase "draw" db.rows).getD 0 }

/-- Store states reachable through the API: timestamps strictly increase in
insertion order and lie in the past, and every moves column deserializes. -/
def DBwf (db : DB) : Prop :=
  db.rows.Pairwise (fun a b => a.createdAt < b.createdAt) ∧
  (∀ r ∈ db.rows, r.createdAt < db.now) ∧
  (∀ r ∈ db.rows, (decodeMoves r.movesJson).isSome = true)

lemma submitGame_ok (db : DB) (w : String) (ms : List Move) :
    submitGame db true w ms
      = (⟨db.rows ++ [⟨db.nextId, w, encodeMoves ms, db.now⟩],
          db.nextId + 1, db.now + 1⟩,
         .ok 201 ⟨db.nextId, w, ms, db.now⟩) := by
  have h1 : decodeMoves (encodeMoves ms) = some ms := decode_encode ms
  simp [submitGame, h1]

/-- C8. If the store is unreachable when a game is submitted, the service
answers a storage failure (500) and writes nothing: the persisted rows are
exactly what they were before the call. -/
theorem C8_storage_failure_atomic (db : DB) (w : String) (ms : List Move) :
    submitGame db false w ms = (db, Resp.err 500) := rfl

lemma sumCase_getD (w : String) (rows : List GameRow) :
    (sumCase w rows).getD 0 = rows.countP fun r => r.winner == w := by
  unfold sumCase
  by_cases h : rows.isEmpty
  · rw [if_pos h, List.isEmpty_iff.mp h]
    rfl
  · rw [if_neg h]
    rfl

lemma getStats_counts (db : DB) :
    getStats db = ⟨db.rows.length,
      db.rows.countP (fun r => r.winner == "X"),
      db.rows.countP (fun r => r.winner == "O"),
      db.rows.countP (fun r => r.winner == "draw")⟩ := by
  unfold getStats
  rw [sumCase_getD, sumCase_getD, sumCase_getD]

/-- A batch of game submissions folded into a fresh store. -/
def submitAll (l : List (String × List Move)) : DB :=
  l.foldl (fun db wm => (submitGame db true wm.1 wm.2).1) DB.empty

lemma submitAll_winners : ∀ (l : List (String × List Move)) (db : DB),
    (l.foldl (fun db wm => (submitGame db true wm.1 wm.2).1) db).rows.map
        GameRow.winner
      = db.rows.map GameRow.winner ++ l.map Prod.fst := by
  intro l
  induction l with
  | nil =>
    intro db
    simp
  | cons wm l ih =>
    intro db
    rw [List.foldl_cons, ih]
    rw [show ((submitGame db true wm.1 wm.2).1).rows
          = db.rows ++ [⟨db.nextId, wm.1, encodeMoves wm.2, db.now⟩] from by
        rw [submitGame_ok]]
    simp

/-- C5. After any batch of submissions, the stats are the exact counts:
`total_games` is the number of persisted records and each outcome counter is
the number of records with that winner string, an integer that is 0 whenever
nothing matches (in particular on an empty store). -/
theorem C5_stats_exact_counts (l : List (String × List Move)) :
    getStats (submitAll l)
      = ⟨l.length,
         l.countP (fun wm => wm.1 == "X"),
         l.countP (fun wm => wm.1 == "O"),
         l.countP (fun wm => wm.1 == "draw")⟩ := by
  have hw := submitAll_winners l DB.empty
  rw [show (DB.empty.rows.map GameRow.winner ++ l.map Prod.fst)
        = l.map Prod.fst from by simp [DB.empty]] at hw
  have hlen : (submitAll l).rows.length = l.length := by
    have h2 := congrArg List.length hw
    simpa using h2
  have hcount : ∀ w : String,
      (submitAll l).rows.countP (fun r => r.winner == w)
        = l.countP (fun wm => wm.1 == w) := by
    intro w
    have h2 := congrArg (List.countP (fun v => v == w)) hw
    rw [List.countP_map, List.countP_map] at h2
    exact h2
  rw [getStats_counts, hlen, hcount, hcount, hcount]

/-- C10. The service validates nothing: any winner string is persisted with
status 201; such a record raises `total_games` but none of the outcome
counters, so the three counters can sum to strictly less than the total. -/
theorem C10_no_validation (db : DB) (w : String) (ms : List Move)
    (hX : w ≠ "X") (hO : w ≠ "O") (hD : w ≠ "draw") :
    (submitGame db true w ms).2
        = Resp.ok 201 ⟨db.nextId, w, ms, db.now⟩ ∧
    (getStats (submitGame db true w ms).1).total_games
        = (getStats db).total_games + 1 ∧
    (getStats (submitGame db true w ms).1).x_wins = (getStats db).x_wins ∧
    (getStats (submitGame db true w ms).1).o_wins = (getStats db).o_wins ∧
    (getStats (submitGame db true w ms).1).draws = (getStats db).draws := by
  rw [submitGame_ok]
  refine ⟨rfl, ?_, ?_, ?_, ?_⟩ <;>
    simp [getStats_counts, List.countP_append, List.countP_cons, hX, hO, hD]

/-- Witness for C10: one record with winner "Z" on a fresh store makes the
outcome counters sum to strictly less than the total. -/
theorem C10_witness :
    (getStats (submitGame DB.empty true "Z" []).1).x_wins
      + (getStats (submitGame DB.empty true "Z" []).1).o_wins
      + (getStats (submitGame DB.empty true "Z" []).1).draws
      < (getStats (submitGame DB.empty true "Z" []).1).total_games := by
  have h := C10_no_validation DB.empty "Z" []
    (by decide) (by decide) (by decide)
  rw [h.2.2.1, h.2.2.2.1, h.2.2.2.2, h.2.1]
  decide

lemma orderedInsert_at_end (a : GameRow) : ∀ (l : List GameRow),
    (∀ b ∈ l, ¬ byNewest a b) →
    List.orderedInsert byNewest a l = l ++ [a] := by
  intro l
  induction l with
  | nil => intro _; rfl
  | cons b l ih =>
    intro h
    show (if byNewest a b then a :: b :: l
        else b :: List.orderedInsert byNewest a l) = (b :: l) ++ [a]
    rw [if_neg (h b (List.mem_cons_self b l)),
      ih fun c hc => h c (List.mem_cons_of_mem b hc)]
    rfl

lemma sort_desc_eq_reverse : ∀ (l : List GameRow),
    l.Pairwise (fun a b => a.createdAt < b.createdAt) →
    List.insertionSort byNewest l = l.reverse := by
  intro l
  induction l with
  | nil => intro _; rfl
  | cons a l ih =>
    intro h
    rcases List.pairwise_cons.mp h with ⟨hall, hp⟩
    show List.orderedInsert byNewest a (List.insertionSort byNewest l)
        = (a :: l).reverse
    rw [ih hp, List.reverse_cons]
    refine orderedInsert_at_end a l.reverse fun b hb => ?_
    have hab := hall b (List.mem_reverse.mp hb)
    unfold byNewest
    omega

lemma seqDecode_isSome : ∀ (rs : List GameRow),
    (∀ r ∈ rs, (decodeMoves r.movesJson).isSome = true) →
    ∃ outs, seqDecode rs = some outs := by
  intro rs
  induction rs with
  | nil => intro _; exact ⟨[], rfl⟩
  | cons r rs ih =>
    intro h
    rcases Option.isSome_iff_exists.mp (h r (List.mem_cons_self r rs)) with ⟨ms, hms⟩
    rcases ih (fun x hx => h x (List.mem_cons_of_mem r hx)) with ⟨outs, houts⟩
    refine ⟨GameOut.mk r.id r.winner ms r.createdAt :: outs, ?_⟩
    show (match decodeMoves r.movesJson with
      | none => none
      | some ms =>
        match seqDecode rs with
        | none => none
        | some outs => some (GameOut.mk r.id r.winner ms r.createdAt :: outs))
      = some (GameOut.mk r.id r.winner ms r.createdAt :: outs)
    rw [hms, houts]

/-- The field-wise relation between a selected row and its API record. -/
def RowOut (r : GameRow) (o : GameOut) : Prop :=
  r.id = o.id ∧ r.winner = o.winner ∧ r.createdAt = o.createdAt ∧
  decodeMoves r.movesJson = some o.moves

lemma seqDecode_forall2 : ∀ (rs : List GameRow) (outs : List GameOut),
    seqDecode rs = some outs → List.Forall₂ RowOut rs outs := by
  intro rs
  induction rs with
  | nil =>
    intro outs h
    rw [show seqDecode [] = some [] from rfl] at h
    rw [← Option.some_inj.mp h]
    exact List.Forall₂.nil
  | cons r rs ih =>
    intro outs h
    rw [show seqDecode (r :: rs)
        = (match decodeMoves r.movesJson with
          | none => none
          | some ms =>
            match seqDecode rs with
            | none => none
            | some outs => some (⟨r.id, r.winner, ms, r.createdAt⟩ :: outs))
      from rfl] at h
    cases hms : decodeMoves r.movesJson with
    | none => rw [hms] at h; exact absurd h (by simp)
    | some ms =>
      rw [hms] at h
      cases houts : seqDecode rs with
      | none => rw [houts] at h; exact absurd h (by simp)
      | some outs2 =>
        rw [houts] at h
        rw [← Option.some_inj.mp h]
        exact List.Forall₂.cons ⟨rfl, rfl, rfl, hms⟩ (ih outs2 houts)

lemma forall2_mem_right : ∀ {rs : List GameRow} {outs : List GameOut},
    List.Forall₂ RowOut rs outs → ∀ o ∈ outs, ∃ r ∈ rs, RowOut r o := by
  intro rs outs h
  induction h with
  | nil => intro o ho; exact absurd ho (by simp)
  | cons hro _ ih =>
    intro o ho
    rcases List.mem_cons.mp ho with rfl | ho2
    · exact ⟨_, List.mem_cons_self _ _, hro⟩
    · rcases ih o ho2 with ⟨r, hr, hrel⟩
      exact ⟨r, List.mem_cons_of_mem _ hr, hrel⟩

lemma forall2_pairwise : ∀ {rs : List GameRow} {outs : List GameOut},
    List.Forall₂ RowOut rs outs →
    rs.Pairwise (fun a b => b.createdAt ≤ a.createdAt) →
    outs.Pairwise (fun a b => b.createdAt ≤ a.createdAt) := by
  intro rs outs h
  induction h with
  | nil => intro _; exact List.Pairwise.nil
  | cons hro h2 ih =>
    intro hp
    rcases List.pairwise_cons.mp hp with ⟨hall, hp2⟩
    refine List.Pairwise.cons ?_ (ih hp2)
    intro o2 ho2
    rcases forall2_mem_right h2 o2 ho2 with ⟨r2, hr2, hrel2⟩
    have h1 := hall r2 hr2
    rw [hro.2.2.1, hrel2.2.2.1] at h1
    exact h1

lemma listRecentGames_eq (db : DB) (outs : List GameOut)
    (h : seqDecode ((List.insertionSort byNewest db.rows).take 10) = some outs) :
    listRecentGames db = Resp.ok 200 outs := by
  unfold listRecentGames
  rw [h]

/-- C4. Round trip: submitting a game and then listing recent games yields,
as the newest record, one whose winner and moves are structurally equal to
what was submitted. -/
theorem C4_round_trip (db : DB) (w : String) (ms : List Move)
    (hwf : DBwf db) :
    ∃ out outs,
      (submitGame db true w ms).2 = Resp.ok 201 out ∧
      listRecentGames (submitGame db true w ms).1
        = Resp.ok 200 (out :: outs) ∧
      out.winner = w ∧ out.moves = ms := by
  rw [submitGame_ok]
  have hpw : (db.rows ++ [GameRow.mk db.nextId w (encodeMoves ms) db.now]).Pairwise
      (fun a b => a.createdAt < b.createdAt) := by
    rw [List.pairwise_append]
    refine ⟨hwf.1, List.pairwise_singleton _ _, ?_⟩
    intro a ha b hb
    rw [List.mem_singleton.mp hb]
    exact hwf.2.1 a ha
  have hsort : List.insertionSort byNewest
        (db.rows ++ [GameRow.mk db.nextId w (encodeMoves ms) db.now])
      = GameRow.mk db.nextId w (encodeMoves ms) db.now :: db.rows.reverse := by
    rw [sort_desc_eq_reverse _ hpw, List.reverse_append]
    rfl
  have hdec : ∀ r ∈ db.rows.reverse.take 9,
      (decodeMoves r.movesJson).isSome = true :=
    fun r hr => hwf.2.2 r (List.mem_reverse.mp (List.take_subset _ _ hr))
  rcases seqDecode_isSome _ hdec with ⟨outs, houts⟩
  have hsd : seqDecode ((List.insertionSort byNewest
        (db.rows ++ [GameRow.mk db.nextId w (encodeMoves ms) db.now])).take 10)
      = some (GameOut.mk db.nextId w ms db.now :: outs) := by
    rw [hsort, show (10 : Nat) = 9 + 1 from rfl, List.take_succ_cons]
    show (match decodeMoves (encodeMoves ms) with
      | none => none
      | some ms2 =>
        match seqDecode (db.rows.reverse.take 9) with
        | none => none
        | some outs2 => some (GameOut.mk db.nextId w ms2 db.now :: outs2))
      = some (GameOut.mk db.nextId w ms db.now :: outs)
    rw [decode_encode, houts]
  exact ⟨GameOut.mk db.nextId w ms db.now, outs, rfl,
    listRecentGames_eq _ _ hsd, rfl, rfl⟩

/-- Witness for C4: submitting the one-move game ("X", [X at 0]) to a fresh
store and listing gives it back verbatim. -/
theorem C4_witness :
    DBwf DB.empty ∧
    ∃ out outs,
      (submitGame DB.empty true "X" [Move.mk .X 0]).2 = Resp.ok 201 out ∧
      listRecentGames (submitGame DB.empty true "X" [Move.mk .X 0]).1
        = Resp.ok 200 (out :: outs) ∧
      out.winner = "X" ∧ out.moves = [Move.mk .X 0] := by
  have hwf : DBwf DB.empty :=
    ⟨List.Pairwise.nil, by simp [DB.empty], by simp [DB.empty]⟩
  exact ⟨hwf, C4_round_trip DB.empty "X" [Move.mk .X 0] hwf⟩

/-- C7. Listing recent games answers 200 with at most 10 records, ordered
newest-created first, each deserialized from a stored row; an empty store
yields the empty list, not an error. -/
theorem C7_recent_list (db : DB) (hwf : DBwf db) :
    ∃ outs, listRecentGames db = Resp.ok 200 outs ∧
      outs.length ≤ 10 ∧
      outs.Pairwise (fun a b => b.createdAt ≤ a.createdAt) ∧
      (∀ o ∈ outs, ∃ r ∈ db.rows, RowOut r o) ∧
      (db.rows = [] → outs = []) := by
  have hdec : ∀ r ∈ db.rows.reverse.take 10,
      (decodeMoves r.movesJson).isSome = true :=
    fun r hr => hwf.2.2 r (List.mem_reverse.mp (List.take_subset _ _ hr))
  rcases seqDecode_isSome _ hdec with ⟨outs, houts⟩
  have hsd : seqDecode ((List.insertionSort byNewest db.rows).take 10)
      = some outs := by
    rw [sort_desc_eq_reverse _ hwf.1]
    exact houts
  have hf2 := seqDecode_forall2 _ _ houts
  refine ⟨outs, listRecentGames_eq db outs hsd, ?_, ?_, ?_, ?_⟩
  · rw [← hf2.length_eq]
    exact List.length_take_le 10 _
  · refine forall2_pairwise hf2 ?_
    have hrev : db.rows.reverse.Pairwise
        (fun a b => b.createdAt < a.createdAt) := by
      rw [List.pairwise_reverse]
      exact hwf.1
    exact (hrev.sublist (List.take_sublist 10 db.rows.reverse)).imp
      fun hab => le_of_lt hab
  · intro o ho
    rcases forall2_mem_right hf2 o ho with ⟨r, hr, hrel⟩
    exact ⟨r, List.mem_reverse.mp (List.take_subset _ _ hr), hrel⟩
  · intro hnil
    rw [hnil] at houts
    exact (Option.some_inj.mp houts).symm

/-- Witness for C7: the fresh store lists the empty collection with 200. -/
theorem C7_witness :
    DBwf DB.empty ∧
    ∃ outs, listRecentGames DB.empty = Resp.ok 200 outs ∧
      outs.length ≤ 10 ∧
      outs.Pairwise (fun a b => b.createdAt ≤ a.createdAt) ∧
      (∀ o ∈ outs, ∃ r ∈ DB.empty.rows, RowOut r o) ∧
      (DB.empty.rows = [] → outs = []) := by
  have hwf : DBwf DB.empty :=
    ⟨List.Pairwise.nil, by simp [DB.empty], by simp [DB.empty]⟩
  exact ⟨hwf, C7_recent_list DB.empty hwf⟩
